import Mathlib

/-!
# Verification of the SignUp-APP client-record store (src/app.py)

Shallow embedding of the persistence and export logic of `src/app.py`:
the `Database` class (user accounts, client records, identifier
generation), the Excel export of `ClientApp._export_excel`, and the PDF
contract export of `ContractWindow._export_pdf`.

Python dictionaries are modelled as association lists in insertion
order with distinct keys; SQLite rows as structures with `Option String`
for nullable columns; `json.dumps`/`json.loads` (restricted to the flat
string-to-string objects this program ever stores) as an executable
codec defined below.  The PBKDF2 password hash (`hashlib.pbkdf2_hmac`,
an external library primitive) is a parameter of the credential-store
definitions.
-/

/-- Python truthiness of `x or default` for an optional string: `None`
and the empty string are falsy (`data.get(k) or default` in the source). -/
def pyOr (o : Option String) (d : String) : String :=
  match o with
  | none => d
  | some s => if s = "" then d else s

/-- Python dict lookup on an association list (first matching key). -/
def dlookup (k : String) : List (String × String) → Option String
  | [] => none
  | (k', v) :: rest => if k' = k then some v else dlookup k rest

/-- Python `d[k] = v`: replace the value at `k` in place if the key is
present, otherwise append the pair at the end (dict insertion order). -/
def dictSet : List (String × String) → String → String → List (String × String)
  | [], k, v => [(k, v)]
  | (k', v') :: rest, k, v =>
    if k' = k then (k, v) :: rest else (k', v') :: dictSet rest k v

/-- Python `d.update(e)`: set every pair of `e`, in order, into `d`. -/
def pyUpdate (d e : List (String × String)) : List (String × String) :=
  e.foldl (fun acc kv => dictSet acc kv.1 kv.2) d

/-- The decimal digit characters, via an explicit table. -/
def digitChar (d : Nat) : Char :=
  if d = 0 then '0' else if d = 1 then '1' else if d = 2 then '2'
  else if d = 3 then '3' else if d = 4 then '4' else if d = 5 then '5'
  else if d = 6 then '6' else if d = 7 then '7' else if d = 8 then '8'
  else '9'

/-- Decimal digit list of a natural number (fuel-based, most significant
digit first); mirrors the rendering of Python's `d` format code. -/
def natDecimalAux : Nat → Nat → List Char
  | 0, _ => []
  | fuel + 1, n =>
    if n < 10 then [digitChar n]
    else natDecimalAux fuel (n / 10) ++ [digitChar (n % 10)]

def natDecimal (n : Nat) : List Char := natDecimalAux (n + 1) n

/-- Python `f"{n:05d}"` for a natural number: the decimal digits,
left-padded with zeros to a minimum width of five. -/
def pad5 (n : Nat) : String :=
  ⟨List.replicate (5 - (natDecimal n).length) '0' ++ natDecimal n⟩

/-- The identifier format of `Database._next_kundennummer`. -/
def kFormat (n : Nat) : String := "K-" ++ pad5 n

/-- Numeric value of a digit-character list (base 10, leading zeros
allowed); used to invert the decimal rendering. -/
def valChars (l : List Char) : Nat :=
  l.foldl (fun acc c => acc * 10 + (c.toNat - 48)) 0

/-! ## JSON codec for flat string-to-string objects

`Database.save_client` stores `json.dumps(extra_fields, ensure_ascii=False)`
and `Database.list_clients` applies `json.loads`.  The objects involved
are always flat `Dict[str, str]` values, so the codec below covers
exactly that fragment: Python's `dumps` output format (`", "` item and
`": "` key separators, short escapes for the two JSON metacharacters and
the common control characters, `\u00XX` for other control characters)
and a `loads` that accepts that output with optional whitespace. -/

/-- Lowercase hexadecimal digit characters. -/
def hexLowerDigit (d : Nat) : Char :=
  if d = 0 then '0' else if d = 1 then '1' else if d = 2 then '2'
  else if d = 3 then '3' else if d = 4 then '4' else if d = 5 then '5'
  else if d = 6 then '6' else if d = 7 then '7' else if d = 8 then '8'
  else if d = 9 then '9' else if d = 10 then 'a' else if d = 11 then 'b'
  else if d = 12 then 'c' else if d = 13 then 'd' else if d = 14 then 'e'
  else 'f'

/-- Escape of one character inside a JSON string, as emitted by
Python's `json.dumps` with `ensure_ascii=False`. -/
def escapeChar (c : Char) : List Char :=
  if c = '\"' then ['\\', '\"']
  else if c = '\\' then ['\\', '\\']
  else if c = '\x08' then ['\\', 'b']
  else if c = '\x09' then ['\\', 't']
  else if c = '\x0a' then ['\\', 'n']
  else if c = '\x0c' then ['\\', 'f']
  else if c = '\x0d' then ['\\', 'r']
  else if c.toNat < 32 then
    ['\\', 'u', '0', '0', hexLowerDigit (c.toNat / 16), hexLowerDigit (c.toNat % 16)]
  else [c]

def escapeList : List Char → List Char
  | [] => []
  | c :: rest => escapeChar c ++ escapeList rest

/-- A JSON string literal for `s`, as `json.dumps` prints it. -/
def encodeJsonString (s : String) : String :=
  ⟨'\"' :: escapeList s.data ++ ['\"']⟩

/-- The members of a JSON object, joined with `", "`, each rendered as
`key": "value` pairs joined with `": "` (Python's default separators). -/
def encodeMembers : List (String × String) → List Char
  | [] => []
  | [(k, v)] => (encodeJsonString k).data ++ ':' :: ' ' :: (encodeJsonString v).data
  | (k, v) :: rest =>
    (encodeJsonString k).data ++ ':' :: ' ' :: (encodeJsonString v).data
      ++ ',' :: ' ' :: encodeMembers rest

/-- `json.dumps` of a flat string-to-string dict. -/
def jsonDumps (d : List (String × String)) : String :=
  ⟨'\x7b' :: encodeMembers d ++ ['\x7d']⟩

/-- Hexadecimal value of one character, if it is a hex digit. -/
def hexVal (c : Char) : Option Nat :=
  if '0' ≤ c ∧ c ≤ '9' then some (c.toNat - 48)
  else if 'a' ≤ c ∧ c ≤ 'f' then some (c.toNat - 87)
  else if 'A' ≤ c ∧ c ≤ 'F' then some (c.toNat - 55)
  else none

/-- Skip JSON whitespace. -/
def skipSpaces : List Char → List Char
  | [] => []
  | c :: rest =>
    if c = ' ' ∨ c = '\x09' ∨ c = '\x0a' ∨ c = '\x0d' then skipSpaces rest
    else c :: rest

/-- Decode the body of a JSON string literal (the characters after the
opening quote); returns the decoded characters and the input remaining
after the closing quote. -/
def decodeStringBody : List Char → Option (List Char × List Char)
  | [] => none
  | c :: rest =>
    if c = '\"' then some ([], rest)
    else if c = '\\' then
      match rest with
      | [] => none
      | e :: rest2 =>
        if e = '\"' then (decodeStringBody rest2).map (fun p => ('\"' :: p.1, p.2))
        else if e = '\\' then (decodeStringBody rest2).map (fun p => ('\\' :: p.1, p.2))
        else if e = '/' then (decodeStringBody rest2).map (fun p => ('/' :: p.1, p.2))
        else if e = 'b' then (decodeStringBody rest2).map (fun p => ('\x08' :: p.1, p.2))
        else if e = 't' then (decodeStringBody rest2).map (fun p => ('\x09' :: p.1, p.2))
        else if e = 'n' then (decodeStringBody rest2).map (fun p => ('\x0a' :: p.1, p.2))
        else if e = 'f' then (decodeStringBody rest2).map (fun p => ('\x0c' :: p.1, p.2))
        else if e = 'r' then (decodeStringBody rest2).map (fun p => ('\x0d' :: p.1, p.2))
        else if e = 'u' then
          match rest2 with
          | h1 :: h2 :: h3 :: h4 :: rest3 =>
            match hexVal h1, hexVal h2, hexVal h3, hexVal h4 with
            | some a, some b, some c2, some d =>
              (decodeStringBody rest3).map
                (fun p => (Char.ofNat (4096 * a + 256 * b + 16 * c2 + d) :: p.1, p.2))
            | _, _, _, _ => none
          | _ => none
        else none
    else (decodeStringBody rest).map (fun p => (c :: p.1, p.2))

/-- Parse a nonempty sequence of `"key": "value"` members up to and
including the closing brace; the fuel bounds the number of members. -/
def parseMembers : Nat → List Char → Option (List (String × String) × List Char)
  | 0, _ => none
  | fuel + 1, input =>
    match skipSpaces input with
    | [] => none
    | c :: rest =>
      if c = '\"' then
        match decodeStringBody rest with
        | none => none
        | some (key, afterKey) =>
          match skipSpaces afterKey with
          | [] => none
          | c2 :: rest2 =>
            if c2 = ':' then
              match skipSpaces rest2 with
              | [] => none
              | c3 :: rest3 =>
                if c3 = '\"' then
                  match decodeStringBody rest3 with
                  | none => none
                  | some (value, afterVal) =>
                    match skipSpaces afterVal with
                    | [] => none
                    | c4 :: rest4 =>
                      if c4 = ',' then
                        match parseMembers fuel rest4 with
                        | none => none
                        | some (pairs, rem) => some ((⟨key⟩, ⟨value⟩) :: pairs, rem)
                      else if c4 = '\x7d' then some ([(⟨key⟩, ⟨value⟩)], rest4)
                      else none
                else none
            else none
      else none

/-- Build a Python dict from the parsed members: a later duplicate key
overwrites the earlier value, as `json.loads` does. -/
def dedupe (pairs : List (String × String)) : List (String × String) :=
  pairs.foldl (fun acc kv => dictSet acc kv.1 kv.2) []

/-- `json.loads` restricted to flat string-to-string objects. -/
def jsonLoads (s : String) : Option (List (String × String)) :=
  match skipSpaces s.data with
  | [] => none
  | c :: rest =>
    if c = '\x7b' then
      match skipSpaces rest with
      | [] => none
      | c2 :: rest2 =>
        if c2 = '\x7d' then
          if skipSpaces rest2 = [] then some [] else none
        else
          match parseMembers s.data.length (c2 :: rest2) with
          | none => none
          | some (pairs, rem) =>
            if skipSpaces rem = [] then some (dedupe pairs) else none
    else none

/-! ## The database model

One SQLite file with a `users` table and a `clients` table
(`Database._ensure_db`); the `app_settings` table does not bear on any
verified claim and is omitted.  Row ids are assigned by
`AUTOINCREMENT`: with no delete operation in the program, each insert
receives one plus the largest id present. -/

/-- A row of the `users` table (the unused autoincrement id is omitted;
`username` carries a UNIQUE constraint). -/
structure UserRow where
  username : String
  password_hash : String
  salt : String
deriving DecidableEq, Repr

/-- A row of the `clients` table: `kundennummer` is `TEXT UNIQUE NOT
NULL`, the thirteen remaining data columns and `extra_fields` are
nullable `TEXT`. -/
structure ClientRow where
  id : Nat
  kundennummer : String
  ma : Option String
  name : Option String
  strasse : Option String
  plz : Option String
  ort : Option String
  geburtsdatum : Option String
  pg : Option String
  versicherungsnummer : Option String
  pflegekasse : Option String
  telefon : Option String
  preise : Option String
  fahrtkosten : Option String
  bemerkungen : Option String
  extra_fields : Option String
deriving DecidableEq, Repr

/-- The persistent state: the two tables the claims concern. -/
structure DbState where
  users : List UserRow
  clients : List ClientRow
deriving DecidableEq, Repr

/-- `SELECT MAX(id) FROM clients`, with `row[0] or 0` collapsing the
NULL of an empty table to zero. -/
def maxId (rows : List ClientRow) : Nat :=
  rows.foldr (fun r m => Nat.max r.id m) 0

/-- `Database._next_kundennummer`: one plus the maximal row id,
formatted as `K-` plus a five-digit zero-padded number. -/
def next_kundennummer (st : DbState) : String :=
  kFormat (maxId st.clients + 1)

/-- `data.get("kundennummer") or self._next_kundennummer()` in
`Database.save_client`. -/
def resolveKundennummer (st : DbState) (data : List (String × String)) : String :=
  pyOr (dlookup "kundennummer" data) (next_kundennummer st)

/-- The row `Database.save_client` inserts: the resolved identifier,
the thirteen `data.get(...)` column values, and the `json.dumps` of the
extra fields. -/
def savedRow (st : DbState) (data extra : List (String × String)) : ClientRow :=
  { id := maxId st.clients + 1
    kundennummer := resolveKundennummer st data
    ma := dlookup "ma" data
    name := dlookup "name" data
    strasse := dlookup "strasse" data
    plz := dlookup "plz" data
    ort := dlookup "ort" data
    geburtsdatum := dlookup "geburtsdatum" data
    pg := dlookup "pg" data
    versicherungsnummer := dlookup "versicherungsnummer" data
    pflegekasse := dlookup "pflegekasse" data
    telefon := dlookup "telefon" data
    preise := dlookup "preise" data
    fahrtkosten := dlookup "fahrtkosten" data
    bemerkungen := dlookup "bemerkungen" data
    extra_fields := some (jsonDumps extra) }

/-- `Database.save_client`: insert one row; the UNIQUE constraint on
`kundennummer` raises `sqlite3.IntegrityError` (modelled as the error
branch) and the connection context manager rolls the transaction back,
so on error no state is produced. -/
def save_client (st : DbState) (data extra : List (String × String)) :
    Except String DbState :=
  if (st.clients.map ClientRow.kundennummer).contains (resolveKundennummer st data) then
    Except.error "UNIQUE constraint failed: clients.kundennummer"
  else
    Except.ok { st with clients := st.clients ++ [savedRow st data extra] }

/-- The state after a `save_client` call as the caller observes it: the
rolled-back (unchanged) state when the insert raised. -/
def runSave (st : DbState) (data extra : List (String × String)) : DbState :=
  match save_client st data extra with
  | Except.ok st' => st'
  | Except.error _ => st

/-- The fourteen fixed field names of a listed client record, in the
order `Database.list_clients` builds its dict. -/
def fixedKeys : List String :=
  ["kundennummer", "ma", "name", "strasse", "plz", "ort", "geburtsdatum", "pg",
   "versicherungsnummer", "pflegekasse", "telefon", "preise", "fahrtkosten",
   "bemerkungen"]

/-- The base dict `Database.list_clients` builds from one row before
merging the extra fields: every nullable column is rendered with
`row[i] or ""`. -/
def rowBase (r : ClientRow) : List (String × String) :=
  [("kundennummer", r.kundennummer),
   ("ma", pyOr r.ma ""),
   ("name", pyOr r.name ""),
   ("strasse", pyOr r.strasse ""),
   ("plz", pyOr r.plz ""),
   ("ort", pyOr r.ort ""),
   ("geburtsdatum", pyOr r.geburtsdatum ""),
   ("pg", pyOr r.pg ""),
   ("versicherungsnummer", pyOr r.versicherungsnummer ""),
   ("pflegekasse", pyOr r.pflegekasse ""),
   ("telefon", pyOr r.telefon ""),
   ("preise", pyOr r.preise ""),
   ("fahrtkosten", pyOr r.fahrtkosten ""),
   ("bemerkungen", pyOr r.bemerkungen "")]

/-- One listed record: `json.loads(row[14] or "{}")` merged over the
base dict with `client.update(extra)`; `none` when the stored blob does
not parse (where the Python raises). -/
def rowToClient (r : ClientRow) : Option (List (String × String)) :=
  (jsonLoads (pyOr r.extra_fields "\x7b\x7d")).map (fun extra => pyUpdate (rowBase r) extra)

/-- Descending insertion by row id, modelling `ORDER BY id DESC`. -/
def insertDesc (r : ClientRow) : List ClientRow → List ClientRow
  | [] => [r]
  | x :: xs => if x.id ≤ r.id then r :: x :: xs else x :: insertDesc r xs

def sortDesc (rows : List ClientRow) : List ClientRow :=
  rows.foldr insertDesc []

/-- Effectful traversal of the row loop in `Database.list_clients`:
each row is rendered in turn; a raising row aborts the whole call. -/
def optionTraverse {α β : Type} (f : α → Option β) : List α → Option (List β)
  | [] => some []
  | x :: xs =>
    match f x, optionTraverse f xs with
    | some y, some ys => some (y :: ys)
    | _, _ => none

/-- `Database.list_clients`: all rows ordered by id descending, each
rendered to a flat dict. -/
def list_clients (st : DbState) : Option (List (List (String × String))) :=
  optionTraverse rowToClient (sortDesc st.clients)

section CredentialStore

/- The external `hashlib.pbkdf2_hmac("sha256", password, salt, 120000)`
primitive, abstracted as a deterministic function of the password and
the salt. -/
variable (pbkdf2 : String → String → String)

/-- `secrets.token_hex(16)`: lowercase hex encoding of externally drawn
random bytes (two hex digits per byte). -/
def bytesToHex (bs : List Nat) : String :=
  ⟨bs.foldr (fun b acc => hexLowerDigit (b / 16 % 16) :: hexLowerDigit (b % 16) :: acc) []⟩

/-- `Database.create_user`: derive salt and hash, attempt the insert;
the UNIQUE constraint on `username` raises `sqlite3.IntegrityError`,
which the method catches and converts to `False` (the transaction is
rolled back, so the table is unchanged). -/
def create_user (st : DbState) (username password : String) (entropy : List Nat) :
    Bool × DbState :=
  let salt := bytesToHex entropy
  let password_hash := pbkdf2 password salt
  if (st.users.map UserRow.username).contains username then (false, st)
  else (true, { st with users := st.users ++ [⟨username, password_hash, salt⟩] })

/-- `Database.validate_user`: fetch the row for the username; false if
absent, otherwise compare the stored hash with the hash of the supplied
password under the stored salt. -/
def validate_user (st : DbState) (username password : String) : Bool :=
  match st.users.find? (fun u => u.username == username) with
  | none => false
  | some u => u.password_hash == pbkdf2 password u.salt

end CredentialStore

/-! ## Document exporters -/

/-- Outcome of `ClientApp._export_excel`: an informational notice (no
file touched), a cancelled save dialog (no file touched), or a saved
workbook with its header row and data rows. -/
inductive ExcelResult where
  | notice (msg : String)
  | cancelled
  | saved (path : String) (headers : List String) (rows : List (List String))
deriving DecidableEq, Repr

/-- `ClientApp._export_excel`: list the clients; an empty list yields
only the notice `"Keine Kunden zum Exportieren."`; otherwise the header
row is the first record's key sequence and each data row reads every
header key with `client.get(h, "")`.  The store is read, never written,
so the state is returned unchanged; `none` models the unhandled
exception when a stored blob does not parse. -/
def export_excel (st : DbState) (chosenPath : Option String) :
    Option (DbState × ExcelResult) :=
  match list_clients st with
  | none => none
  | some clients =>
    match clients with
    | [] => some (st, ExcelResult.notice "Keine Kunden zum Exportieren.")
    | c :: _ =>
      let headers := c.map Prod.fst
      match chosenPath with
      | none => some (st, ExcelResult.cancelled)
      | some path =>
        some (st, ExcelResult.saved path headers
          (clients.map (fun cl => headers.map (fun h => (dlookup h cl).getD ""))))

/-- One drawing operation of the PDF canvas (`reportlab`).  Vertical
coordinates are recorded as the distance below the top edge of the A4
page: the source computes every y as `height - k`, so `drawString 50 k`
models `pdf.drawString(50, height - k, ...)`.  The fill colour
`(0.12, 0.16, 0.22)` is recorded in hundredths. -/
inductive PdfOp where
  | setFont (font : String) (size : Nat)
  | setFillColorRGBHundredths (r g b : Nat)
  | drawString (x : Int) (depth : Int) (text : String)
  | setLineWidth (w : Nat)
  | line (x1 y1 x2 y2 : Int)
  | showPage
deriving DecidableEq, Repr

/-- The line segments of one signature stroke: one segment per adjacent
point pair, translated by `+50` horizontally and into the region whose
baseline sits 256 points below the top edge (`y = height - 256`;
`pdf.line(50 + p1.x, y + p1.y, 50 + p2.x, y + p2.y)`). -/
def segsOfStroke (s : List (Int × Int)) : List PdfOp :=
  (s.zip s.tail).map
    (fun pq => PdfOp.line (50 + pq.1.1) (256 - pq.1.2) (50 + pq.2.1) (256 - pq.2.2))

def strokeOps (strokes : List (List (Int × Int))) : List PdfOp :=
  strokes.foldr (fun s acc => segsOfStroke s ++ acc) []

/-- `client.get(key, "")` on a listed record. -/
def getStr (client : List (String × String)) (k : String) : String :=
  (dlookup k client).getD ""

/-- The fixed text block `ContractWindow._export_pdf` draws before the
signature strokes: title, seven label/value lines, the boilerplate
sentence, and the signature heading. -/
def contractOps (client : List (String × String)) : List PdfOp :=
  [PdfOp.setFont "Helvetica-Bold" 14,
   PdfOp.setFillColorRGBHundredths 12 16 22,
   PdfOp.drawString 50 60 "Vertrag",
   PdfOp.setFont "Helvetica" 10,
   PdfOp.drawString 50 80 ("Kundennummer: " ++ getStr client "kundennummer"),
   PdfOp.drawString 50 96 ("Name: " ++ getStr client "name"),
   PdfOp.drawString 50 112 ("Adresse: " ++ getStr client "strasse" ++ ", "
     ++ getStr client "plz" ++ " " ++ getStr client "ort"),
   PdfOp.drawString 50 128 ("Geburtsdatum: " ++ getStr client "geburtsdatum"),
   PdfOp.drawString 50 144 ("Pflegegrad: " ++ getStr client "pg"),
   PdfOp.drawString 50 160 ("Versicherungs-Nr.: " ++ getStr client "versicherungsnummer"),
   PdfOp.drawString 50 176 ("Pflegekasse: " ++ getStr client "pflegekasse"),
   PdfOp.drawString 50 206 "Mit der Unterzeichnung bestätigen beide Parteien den Vertrag.",
   PdfOp.setFont "Helvetica-Bold" 12,
   PdfOp.drawString 50 246 "Signatur",
   PdfOp.setLineWidth 2]

/-- The page produced by `ContractWindow._export_pdf`. -/
structure PdfDoc where
  pagesize : String
  ops : List PdfOp
deriving DecidableEq, Repr

/-- `ContractWindow._export_pdf`: one A4 canvas, the fixed text block,
the signature segments, one `showPage`.  The window's branding state
(`companyName`) is in scope in the source method but never used by it;
it is kept as a parameter to state that fact. -/
def export_pdf (client : List (String × String)) (_companyName : String)
    (strokes : List (List (Int × Int))) : PdfDoc :=
  { pagesize := "A4"
    ops := contractOps client ++ strokeOps strokes ++ [PdfOp.showPage] }

/-! ## Spec-side definitions for refinement comparison -/

/-- Test for a decimal digit character. -/
def isDigitChar (c : Char) : Bool := '0' ≤ c ∧ c ≤ '9'

/-- The maximal trailing run of digits of a string (its numeric
suffix). -/
def trailingDigits (s : String) : List Char :=
  (s.data.reverse.takeWhile isDigitChar).reverse

/-- Modelled from the spec: "`nextIdentifier()` computes one greater
than the highest numeric suffix currently stored (0 if empty), formats
as `K-` followed by a 5-digit zero-padded number" — the highest numeric
suffix among the stored client identifiers, plus one, in the `K-`
format.  Stated only to compare against `next_kundennummer`, which is
what the source computes. -/
def specNextIdentifier (st : DbState) : String :=
  kFormat ((st.clients.map (fun r => valChars (trailingDigits r.kundennummer))).foldr Nat.max 0 + 1)
/-! ## Decimal rendering lemmas -/

lemma digitChar_toNat (d : Nat) (h : d < 10) : (digitChar d).toNat = 48 + d := by
  interval_cases d <;> decide

lemma valChars_nil : valChars [] = 0 := rfl

lemma valChars_append_single (l : List Char) (c : Char) :
    valChars (l ++ [c]) = valChars l * 10 + (c.toNat - 48) := by
  simp [valChars, List.foldl_append]

lemma natDecimalAux_val (fuel : Nat) : ∀ n : Nat, n < fuel →
    valChars (natDecimalAux fuel n) = n := by
  induction fuel with
  | zero => intro n h; omega
  | succ fuel ih =>
    intro n h
    unfold natDecimalAux
    by_cases h10 : n < 10
    · simp only [h10, if_true]
      simp [valChars, digitChar_toNat n h10]
    · simp only [h10, if_false]
      rw [valChars_append_single, ih (n / 10) (by omega),
        digitChar_toNat (n % 10) (Nat.mod_lt _ (by norm_num))]
      omega

lemma valChars_natDecimal (n : Nat) : valChars (natDecimal n) = n :=
  natDecimalAux_val (n + 1) n (Nat.lt_succ_self n)

lemma valChars_zeros_append (k : Nat) (l : List Char) :
    valChars (List.replicate k '0' ++ l) = valChars l := by
  induction k with
  | zero => rfl
  | succ k ih =>
    simp only [List.replicate_succ, List.cons_append]
    show valChars (List.replicate k '0' ++ l) = valChars l
    exact ih

lemma valChars_pad5 (n : Nat) : valChars (pad5 n).data = n := by
  show valChars (List.replicate _ '0' ++ natDecimal n) = n
  rw [valChars_zeros_append, valChars_natDecimal]

lemma kFormat_inj {m n : Nat} (h : kFormat m = kFormat n) : m = n := by
  have hd : (kFormat m).data = (kFormat n).data := by rw [h]
  simp only [kFormat, String.data_append] at hd
  simp only [List.cons_append, List.nil_append, List.cons.injEq, true_and] at hd
  have := valChars_pad5 m
  rw [hd, valChars_pad5] at this
  omega

/-! ## JSON codec round-trip -/

lemma hexVal_hexLowerDigit (d : Nat) (h : d < 16) :
    hexVal (hexLowerDigit d) = some d := by
  interval_cases d <;> decide

lemma escapeList_cons (c : Char) (s : List Char) :
    escapeList (c :: s) = escapeChar c ++ escapeList s := rfl

lemma dsb_quote (rest : List Char) : decodeStringBody ('\x22' :: rest) = some ([], rest) := by
  rw [decodeStringBody.eq_def]; simp

lemma dsb_other (c : Char) (rest : List Char) (h1 : c ≠ '\x22') (h2 : c ≠ '\\') :
    decodeStringBody (c :: rest) = (decodeStringBody rest).map (fun p => (c :: p.1, p.2)) := by
  rw [decodeStringBody.eq_def]; simp [h1, h2]

lemma dsb_esc_quote (rest : List Char) : decodeStringBody ('\\' :: '\x22' :: rest)
    = (decodeStringBody rest).map (fun p => ('\x22' :: p.1, p.2)) := by
  rw [decodeStringBody.eq_def]; simp

lemma dsb_esc_backslash (rest : List Char) : decodeStringBody ('\\' :: '\\' :: rest)
    = (decodeStringBody rest).map (fun p => ('\\' :: p.1, p.2)) := by
  rw [decodeStringBody.eq_def]; simp

lemma dsb_esc_b (rest : List Char) : decodeStringBody ('\\' :: 'b' :: rest)
    = (decodeStringBody rest).map (fun p => ('\x08' :: p.1, p.2)) := by
  rw [decodeStringBody.eq_def]; simp

lemma dsb_esc_t (rest : List Char) : decodeStringBody ('\\' :: 't' :: rest)
    = (decodeStringBody rest).map (fun p => ('\x09' :: p.1, p.2)) := by
  rw [decodeStringBody.eq_def]; simp

lemma dsb_esc_n (rest : List Char) : decodeStringBody ('\\' :: 'n' :: rest)
    = (decodeStringBody rest).map (fun p => ('\x0a' :: p.1, p.2)) := by
  rw [decodeStringBody.eq_def]; simp

lemma dsb_esc_f (rest : List Char) : decodeStringBody ('\\' :: 'f' :: rest)
    = (decodeStringBody rest).map (fun p => ('\x0c' :: p.1, p.2)) := by
  rw [decodeStringBody.eq_def]; simp

lemma dsb_esc_r (rest : List Char) : decodeStringBody ('\\' :: 'r' :: rest)
    = (decodeStringBody rest).map (fun p => ('\x0d' :: p.1, p.2)) := by
  rw [decodeStringBody.eq_def]; simp

lemma dsb_esc_u (h1 h2 h3 h4 : Char) (a b c2 d : Nat) (rest : List Char)
    (e1 : hexVal h1 = some a) (e2 : hexVal h2 = some b)
    (e3 : hexVal h3 = some c2) (e4 : hexVal h4 = some d) :
    decodeStringBody ('\\' :: 'u' :: h1 :: h2 :: h3 :: h4 :: rest)
    = (decodeStringBody rest).map
        (fun p => (Char.ofNat (4096 * a + 256 * b + 16 * c2 + d) :: p.1, p.2)) := by
  have hu : h1 ≠ '\x22' := by intro h; rw [h] at e1; simp [hexVal] at e1
  rw [decodeStringBody.eq_def]
  simp [e1, e2, e3, e4]

lemma decodeStringBody_escape (s : List Char) (rest : List Char) :
    decodeStringBody (escapeList s ++ '\x22' :: rest) = some (s, rest) := by
  induction s with
  | nil => simpa using dsb_quote rest
  | cons c s ih =>
    rw [escapeList_cons, List.append_assoc]
    by_cases g1 : c = '\x22'
    · subst g1
      have : escapeChar '\x22' = ['\\', '\x22'] := by decide
      rw [this]
      simp [dsb_esc_quote, ih]
    · by_cases g2 : c = '\\'
      · subst g2
        have : escapeChar '\\' = ['\\', '\\'] := by decide
        rw [this]
        simp [dsb_esc_backslash, ih]
      · by_cases g3 : c = '\x08'
        · subst g3
          have : escapeChar '\x08' = ['\\', 'b'] := by decide
          rw [this]
          simp [dsb_esc_b, ih]
        · by_cases g4 : c = '\x09'
          · subst g4
            have : escapeChar '\x09' = ['\\', 't'] := by decide
            rw [this]
            simp [dsb_esc_t, ih]
          · by_cases g5 : c = '\x0a'
            · subst g5
              have : escapeChar '\x0a' = ['\\', 'n'] := by decide
              rw [this]
              simp [dsb_esc_n, ih]
            · by_cases g6 : c = '\x0c'
              · subst g6
                have : escapeChar '\x0c' = ['\\', 'f'] := by decide
                rw [this]
                simp [dsb_esc_f, ih]
              · by_cases g7 : c = '\x0d'
                · subst g7
                  have : escapeChar '\x0d' = ['\\', 'r'] := by decide
                  rw [this]
                  simp [dsb_esc_r, ih]
                · by_cases g8 : c.toNat < 32
                  · have hesc : escapeChar c = ['\\', 'u', '0', '0',
                        hexLowerDigit (c.toNat / 16), hexLowerDigit (c.toNat % 16)] := by
                      simp [escapeChar, g1, g2, g3, g4, g5, g6, g7, g8]
                    rw [hesc]
                    rw [show (['\\', 'u', '0', '0', hexLowerDigit (c.toNat / 16),
                        hexLowerDigit (c.toNat % 16)] : List Char) ++ (escapeList s ++ '\x22' :: rest)
                      = '\\' :: 'u' :: '0' :: '0' :: hexLowerDigit (c.toNat / 16)
                        :: hexLowerDigit (c.toNat % 16) :: (escapeList s ++ '\x22' :: rest) from rfl]
                    rw [dsb_esc_u _ _ _ _ 0 0 (c.toNat / 16) (c.toNat % 16) _
                      (by decide) (by decide)
                      (hexVal_hexLowerDigit _ (by omega))
                      (hexVal_hexLowerDigit _ (by omega))]
                    rw [ih]
                    have harith : 4096 * 0 + 256 * 0 + 16 * (c.toNat / 16) + c.toNat % 16
                        = c.toNat := by omega
                    rw [harith, Char.ofNat_toNat]
                    rfl
                  · have hesc : escapeChar c = [c] := by
                      simp [escapeChar, g1, g2, g3, g4, g5, g6, g7, g8]
                    rw [hesc]
                    simp [dsb_other c _ g1 g2, ih]

lemma skipSpaces_not (c : Char) (l : List Char)
    (h : ¬(c = ' ' ∨ c = '\x09' ∨ c = '\x0a' ∨ c = '\x0d')) :
    skipSpaces (c :: l) = c :: l := by
  rw [skipSpaces.eq_def]; simp [h]

lemma skipSpaces_space (l : List Char) : skipSpaces (' ' :: l) = skipSpaces l := by
  rw [skipSpaces.eq_def]; simp

lemma parseMembers_space (fuel : Nat) (l : List Char) :
    parseMembers fuel (' ' :: l) = parseMembers fuel l := by
  cases fuel with
  | zero => rfl
  | succ fuel =>
    rw [parseMembers.eq_2]
    conv_rhs => rw [parseMembers.eq_2]
    rw [skipSpaces_space]

lemma skipSpaces_quote (l : List Char) : skipSpaces ('\x22' :: l) = '\x22' :: l :=
  skipSpaces_not _ _ (by decide)

lemma skipSpaces_colon (l : List Char) : skipSpaces (':' :: l) = ':' :: l :=
  skipSpaces_not _ _ (by decide)

lemma skipSpaces_comma (l : List Char) : skipSpaces (',' :: l) = ',' :: l :=
  skipSpaces_not _ _ (by decide)

lemma skipSpaces_rbrace (l : List Char) : skipSpaces ('\x7d' :: l) = '\x7d' :: l :=
  skipSpaces_not _ _ (by decide)

lemma parseMembers_member (fuel : Nat) (k v : String) (tail : List Char) :
    parseMembers (fuel + 1)
      ((encodeJsonString k).data ++ (':' :: ' ' :: ((encodeJsonString v).data ++ tail)))
    = (match skipSpaces tail with
       | [] => none
       | c4 :: rest4 =>
         if c4 = ',' then
           match parseMembers fuel rest4 with
           | none => none
           | some (pairs, rem) => some ((k, v) :: pairs, rem)
         else if c4 = '\x7d' then some ([(k, v)], rest4)
         else none) := by
  have hk : (encodeJsonString k).data ++ (':' :: ' ' :: ((encodeJsonString v).data ++ tail))
      = '\x22' :: (escapeList k.data ++ ('\x22' :: (':' :: ' ' :: ((encodeJsonString v).data ++ tail)))) := by
    show ('\x22' :: escapeList k.data ++ ['\x22']) ++ (':' :: ' ' :: ((encodeJsonString v).data ++ tail)) = _
    simp
  have hv : (encodeJsonString v).data ++ tail
      = '\x22' :: (escapeList v.data ++ ('\x22' :: tail)) := by
    show ('\x22' :: escapeList v.data ++ ['\x22']) ++ tail = _
    simp
  rw [hk, parseMembers.eq_2, skipSpaces_quote]
  simp only [if_pos rfl, decodeStringBody_escape, if_true]
  rw [skipSpaces_colon]
  simp only [if_pos rfl, skipSpaces_space, hv, skipSpaces_quote, decodeStringBody_escape]
  simp

lemma parseMembers_encodeMembers (d : List (String × String)) :
    ∀ fuel rest, d ≠ [] → d.length ≤ fuel →
      parseMembers fuel (encodeMembers d ++ ('\x7d' :: rest)) = some (d, rest) := by
  induction d with
  | nil => intro fuel rest hne _; exact absurd rfl hne
  | cons kv tl ih =>
    intro fuel rest _ hlen
    obtain ⟨k, v⟩ := kv
    cases tl with
    | nil =>
      cases fuel with
      | zero => simp at hlen
      | succ f =>
        have hshape : encodeMembers [(k, v)] ++ ('\x7d' :: rest)
            = (encodeJsonString k).data ++ (':' :: ' ' :: ((encodeJsonString v).data ++ ('\x7d' :: rest))) := by
          simp [encodeMembers]
        rw [hshape, parseMembers_member, skipSpaces_rbrace]
        simp
    | cons p ps =>
      cases fuel with
      | zero => simp at hlen
      | succ f =>
        have hshape : encodeMembers ((k, v) :: p :: ps) ++ ('\x7d' :: rest)
            = (encodeJsonString k).data ++ (':' :: ' ' :: ((encodeJsonString v).data
                ++ (',' :: ' ' :: (encodeMembers (p :: ps) ++ ('\x7d' :: rest))))) := by
          simp [encodeMembers]
        rw [hshape, parseMembers_member, skipSpaces_comma]
        simp only [if_pos rfl, parseMembers_space]
        rw [ih f rest (by simp) (by simpa using hlen)]
        simp

lemma dlookup_eq_none (k : String) (d : List (String × String))
    (h : k ∉ d.map Prod.fst) : dlookup k d = none := by
  induction d with
  | nil => rfl
  | cons kv tl ih =>
    obtain ⟨k', v'⟩ := kv
    simp only [List.map_cons, List.mem_cons] at h
    push_neg at h
    simp only [dlookup, if_neg (Ne.symm h.1), ih h.2]

lemma dictSet_absent (d : List (String × String)) (k : String) (v : String)
    (h : k ∉ d.map Prod.fst) : dictSet d k v = d ++ [(k, v)] := by
  induction d with
  | nil => rfl
  | cons kv tl ih =>
    obtain ⟨k', v'⟩ := kv
    simp only [List.map_cons, List.mem_cons] at h
    push_neg at h
    simp only [dictSet, if_neg (Ne.symm h.1), ih h.2, List.cons_append]

lemma foldl_dictSet_append (d : List (String × String)) :
    ∀ acc : List (String × String), (((acc ++ d).map Prod.fst).Nodup) →
      d.foldl (fun a kv => dictSet a kv.1 kv.2) acc = acc ++ d := by
  induction d with
  | nil => intro acc _; simp
  | cons kv tl ih =>
    intro acc h
    obtain ⟨k, v⟩ := kv
    simp only [List.foldl_cons]
    have hmaps : (acc ++ (k, v) :: tl).map Prod.fst
        = acc.map Prod.fst ++ k :: tl.map Prod.fst := by simp
    rw [hmaps] at h
    have hdisj := List.disjoint_of_nodup_append h
    have hk : k ∉ acc.map Prod.fst := by
      intro hmem
      exact hdisj hmem (by simp)
    rw [dictSet_absent acc k v hk]
    have hre : (acc ++ [(k, v)]) ++ tl = acc ++ ((k, v) :: tl) := by simp
    rw [ih (acc ++ [(k, v)]) (by rw [hre]; simpa using h)]
    simp

lemma dedupe_eq (d : List (String × String)) (h : (d.map Prod.fst).Nodup) :
    dedupe d = d := by
  have := foldl_dictSet_append d [] (by simpa using h)
  simpa [dedupe] using this

lemma encJS_len (s : String) : 2 ≤ (encodeJsonString s).data.length := by
  show 2 ≤ ('\x22' :: escapeList s.data ++ ['\x22']).length
  simp

lemma encodeMembers_length_ge (d : List (String × String)) :
    d.length ≤ (encodeMembers d).length := by
  induction d with
  | nil => simp [encodeMembers]
  | cons kv tl ih =>
    obtain ⟨k, v⟩ := kv
    cases tl with
    | nil =>
      have := encJS_len k
      simp [encodeMembers]
      omega
    | cons p ps =>
      have hk := encJS_len k
      have hv := encJS_len v
      simp only [encodeMembers, List.length_append, List.length_cons] at *
      omega

lemma skipSpaces_lbrace (l : List Char) : skipSpaces ('\x7b' :: l) = '\x7b' :: l :=
  skipSpaces_not _ _ (by decide)

lemma encodeMembers_cons_quote (p : String × String) (tl : List (String × String)) :
    ∃ l, encodeMembers (p :: tl) = '\x22' :: l := by
  obtain ⟨k, v⟩ := p
  cases tl with
  | nil =>
    refine ⟨escapeList k.data ++ ['\x22'] ++ (':' :: ' ' :: (encodeJsonString v).data), ?_⟩
    show (encodeJsonString k).data ++ (':' :: ' ' :: (encodeJsonString v).data) = _
    show ('\x22' :: escapeList k.data ++ ['\x22']) ++ (':' :: ' ' :: (encodeJsonString v).data) = _
    simp
  | cons q qs =>
    refine ⟨escapeList k.data ++ ['\x22'] ++ (':' :: ' ' :: ((encodeJsonString v).data
      ++ (',' :: ' ' :: encodeMembers (q :: qs)))), ?_⟩
    simp [encodeMembers]
    show ('\x22' :: escapeList k.data ++ ['\x22']) ++ _ = _
    simp

theorem jsonLoads_jsonDumps (d : List (String × String))
    (h : (d.map Prod.fst).Nodup) : jsonLoads (jsonDumps d) = some d := by
  cases d with
  | nil => decide
  | cons p tl =>
    obtain ⟨l, hl⟩ := encodeMembers_cons_quote p tl
    have hdata : (jsonDumps (p :: tl)).data
        = '\x7b' :: (encodeMembers (p :: tl) ++ ['\x7d']) := rfl
    rw [jsonLoads, hdata, skipSpaces_lbrace]
    simp only [if_pos rfl]
    rw [hl]
    have : ('\x22' :: l) ++ ['\x7d'] = '\x22' :: (l ++ ['\x7d']) := rfl
    rw [this, skipSpaces_quote]
    simp only [if_neg (by decide : ¬('\x22' : Char) = '\x7d')]
    have hfuel : (p :: tl).length ≤ ('\x7b' :: (encodeMembers (p :: tl) ++ ['\x7d'])).length := by
      have hbase := encodeMembers_length_ge (p :: tl)
      simp only [List.length_cons, List.length_append, List.length_nil] at hbase ⊢
      omega
    have happ : '\x22' :: (l ++ ['\x7d']) = encodeMembers (p :: tl) ++ ('\x7d' :: []) := by
      rw [hl]; rfl
    rw [happ, parseMembers_encodeMembers (p :: tl) _ [] (by simp) (by simpa using hfuel)]
    simp [show skipSpaces ([] : List Char) = [] from rfl, dedupe_eq (p :: tl) h]

/-! ## Dict update lemmas -/

lemma dlookup_dictSet_self (d : List (String × String)) (k v : String) :
    dlookup k (dictSet d k v) = some v := by
  induction d with
  | nil => simp [dictSet, dlookup]
  | cons kv tl ih =>
    obtain ⟨k', v'⟩ := kv
    by_cases h : k' = k
    · subst h; simp [dictSet, dlookup]
    · simp [dictSet, dlookup, h, ih]

lemma dlookup_dictSet_other (d : List (String × String)) (k k' v : String)
    (h : k ≠ k') : dlookup k (dictSet d k' v) = dlookup k d := by
  induction d with
  | nil => simp [dictSet, dlookup, Ne.symm h]
  | cons kv tl ih =>
    obtain ⟨k1, v1⟩ := kv
    by_cases h1 : k1 = k'
    · subst h1; simp [dictSet, dlookup, Ne.symm h]
    · by_cases h2 : k1 = k
      · subst h2; simp [dictSet, dlookup, h1]
      · simp [dictSet, dlookup, h1, h2, ih]

lemma dlookup_dictSet_isSome (d : List (String × String)) (k k' v : String)
    (h : (dlookup k d).isSome) : (dlookup k (dictSet d k' v)).isSome := by
  by_cases he : k = k'
  · subst he; simp [dlookup_dictSet_self]
  · rwa [dlookup_dictSet_other d k k' v he]

lemma dlookup_pyUpdate_isSome (e d : List (String × String)) (k : String)
    (h : (dlookup k d).isSome) : (dlookup k (pyUpdate d e)).isSome := by
  induction e generalizing d with
  | nil => exact h
  | cons kv tl ih =>
    show (dlookup k (pyUpdate (dictSet d kv.1 kv.2) tl)).isSome
    exact ih _ (dlookup_dictSet_isSome d k kv.1 kv.2 h)

lemma dlookup_pyUpdate_not_mem (e d : List (String × String)) (k : String)
    (h : k ∉ e.map Prod.fst) : dlookup k (pyUpdate d e) = dlookup k d := by
  induction e generalizing d with
  | nil => rfl
  | cons kv tl ih =>
    simp only [List.map_cons, List.mem_cons] at h
    push_neg at h
    show dlookup k (pyUpdate (dictSet d kv.1 kv.2) tl) = dlookup k d
    rw [ih _ h.2, dlookup_dictSet_other d k kv.1 kv.2 h.1]

lemma dlookup_pyUpdate_mem (e d : List (String × String)) (k v : String)
    (hnd : (e.map Prod.fst).Nodup) (hmem : (k, v) ∈ e) :
    dlookup k (pyUpdate d e) = some v := by
  induction e generalizing d with
  | nil => simp at hmem
  | cons kv tl ih =>
    obtain ⟨k1, v1⟩ := kv
    simp only [List.map_cons, List.nodup_cons] at hnd
    rcases List.mem_cons.mp hmem with heq | hmem'
    · injection heq with hk hv
      subst hk; subst hv
      show dlookup k (pyUpdate (dictSet d k v) tl) = some v
      rw [dlookup_pyUpdate_not_mem tl _ k hnd.1, dlookup_dictSet_self]
    · have : k ∈ tl.map Prod.fst := by
        exact List.mem_map.mpr ⟨(k, v), hmem', rfl⟩
      show dlookup k (pyUpdate (dictSet d k1 v1) tl) = some v
      exact ih _ hnd.2 hmem'

/-! ## Row order and well-formed states -/

/-- Row ids strictly increase in insertion order: the invariant every
state reachable by `save_client` inserts maintains (`AUTOINCREMENT`
ids grow). -/
def wfClients (st : DbState) : Prop :=
  List.Pairwise (fun a b => a.id < b.id) st.clients

instance (st : DbState) : Decidable (wfClients st) := by
  unfold wfClients; infer_instance

lemma maxId_cons (r : ClientRow) (rows : List ClientRow) :
    maxId (r :: rows) = Nat.max r.id (maxId rows) := rfl

lemma mem_le_maxId (rows : List ClientRow) : ∀ r ∈ rows, r.id ≤ maxId rows := by
  induction rows with
  | nil => simp
  | cons x xs ih =>
    intro r hr
    rcases List.mem_cons.mp hr with h | h
    · subst h; rw [maxId_cons]; exact Nat.le_max_left _ _
    · exact Nat.le_trans (ih r h) (by rw [maxId_cons]; exact Nat.le_max_right _ _)

lemma save_client_ok_clients {st : DbState} {data extra : List (String × String)}
    {st' : DbState} (h : save_client st data extra = Except.ok st') :
    st'.clients = st.clients ++ [savedRow st data extra] := by
  unfold save_client at h
  by_cases hc : (st.clients.map ClientRow.kundennummer).contains (resolveKundennummer st data)
  · rw [if_pos hc] at h; cases h
  · rw [if_neg hc] at h
    cases h
    rfl

lemma save_client_ok_users {st : DbState} {data extra : List (String × String)}
    {st' : DbState} (h : save_client st data extra = Except.ok st') :
    st'.users = st.users := by
  unfold save_client at h
  by_cases hc : (st.clients.map ClientRow.kundennummer).contains (resolveKundennummer st data)
  · rw [if_pos hc] at h; cases h
  · rw [if_neg hc] at h; cases h; rfl

lemma save_client_wf {st : DbState} {data extra : List (String × String)}
    {st' : DbState} (hwf : wfClients st)
    (h : save_client st data extra = Except.ok st') : wfClients st' := by
  unfold wfClients
  rw [save_client_ok_clients h]
  rw [List.pairwise_append]
  refine ⟨hwf, by simp, ?_⟩
  intro a ha b hb
  rcases List.mem_singleton.mp hb with rfl
  have := mem_le_maxId st.clients a ha
  show a.id < maxId st.clients + 1
  omega

lemma insertDesc_big (r : ClientRow) (l : List ClientRow)
    (h : ∀ x ∈ l, r.id < x.id) : insertDesc r l = l ++ [r] := by
  induction l with
  | nil => rfl
  | cons x xs ih =>
    have hx := h x (by simp)
    simp only [insertDesc, if_neg (by omega : ¬x.id ≤ r.id)]
    rw [ih (fun y hy => h y (by simp [hy]))]
    simp

lemma sortDesc_eq_reverse (rows : List ClientRow)
    (h : List.Pairwise (fun a b => a.id < b.id) rows) :
    sortDesc rows = rows.reverse := by
  induction rows with
  | nil => rfl
  | cons r rows ih =>
    rw [List.pairwise_cons] at h
    show insertDesc r (sortDesc rows) = (r :: rows).reverse
    rw [ih h.2, insertDesc_big r rows.reverse
      (fun x hx => h.1 x (List.mem_reverse.mp hx))]
    simp

/-! ## Listing lemmas -/

lemma jsonDumps_ne_empty (d : List (String × String)) : jsonDumps d ≠ "" := by
  intro h
  have : (jsonDumps d).data = [] := by rw [h]
  simp [jsonDumps] at this

lemma rowToClient_savedRow (st : DbState) (data extra : List (String × String))
    (h : (extra.map Prod.fst).Nodup) :
    rowToClient (savedRow st data extra)
      = some (pyUpdate (rowBase (savedRow st data extra)) extra) := by
  unfold rowToClient
  have hef : (savedRow st data extra).extra_fields = some (jsonDumps extra) := rfl
  rw [hef]
  have : pyOr (some (jsonDumps extra)) "\x7b\x7d" = jsonDumps extra := by
    simp [pyOr, jsonDumps_ne_empty extra]
  rw [this, jsonLoads_jsonDumps extra h]
  rfl

lemma optionTraverse_cons {α β : Type} (f : α → Option β) (x : α) (l : List α)
    (y : β) (ys : List β) (hx : f x = some y) (hl : optionTraverse f l = some ys) :
    optionTraverse f (x :: l) = some (y :: ys) := by
  simp [optionTraverse, hx, hl]

lemma optionTraverse_mem {α β : Type} (f : α → Option β) (l : List α)
    (ys : List β) (h : optionTraverse f l = some ys) :
    ∀ y ∈ ys, ∃ x ∈ l, f x = some y := by
  induction l generalizing ys with
  | nil =>
    simp only [optionTraverse, Option.some.injEq] at h
    subst h; simp
  | cons x xs ih =>
    cases hx : f x with
    | none => simp [optionTraverse, hx] at h
    | some b =>
      cases hxs : optionTraverse f xs with
      | none => simp [optionTraverse, hx, hxs] at h
      | some bs =>
        simp only [optionTraverse, hx, hxs, Option.some.injEq] at h
        subst h
        intro y hy
        rcases List.mem_cons.mp hy with rfl | hmem
        · exact ⟨x, by simp, hx⟩
        · obtain ⟨x', hx', hfx'⟩ := ih bs hxs y hmem
          exact ⟨x', by simp [hx'], hfx'⟩

/-! ## Further helper lemmas -/

lemma maxId_append (l1 l2 : List ClientRow) :
    maxId (l1 ++ l2) = Nat.max (maxId l1) (maxId l2) := by
  induction l1 with
  | nil => simp [maxId]
  | cons x xs ih =>
    show maxId (x :: (xs ++ l2)) = Nat.max (maxId (x :: xs)) (maxId l2)
    rw [maxId_cons, ih, maxId_cons]
    exact (Nat.max_assoc x.id (maxId xs) (maxId l2)).symm

lemma maxId_attained (rows : List ClientRow) (h : rows ≠ []) :
    ∃ r ∈ rows, r.id = maxId rows := by
  induction rows with
  | nil => exact absurd rfl h
  | cons x xs ih =>
    cases xs with
    | nil => exact ⟨x, by simp, by rw [maxId_cons]; simp [maxId]⟩
    | cons y ys =>
      obtain ⟨r, hr, hid⟩ := ih (by simp)
      rw [maxId_cons]
      rcases Nat.le_total (maxId (y :: ys)) x.id with hle | hle
      · exact ⟨x, by simp, (Nat.max_eq_left hle).symm⟩
      · exact ⟨r, by simp [hr], hid.trans (Nat.max_eq_right hle).symm⟩

lemma contains_eq_false_iff (l : List String) (x : String) :
    l.contains x = false ↔ x ∉ l := by
  simp [List.contains]

lemma find?_username_none (users : List UserRow) (u : String)
    (h : u ∉ users.map UserRow.username) :
    users.find? (fun x => x.username == u) = none := by
  rw [List.find?_eq_none]
  intro x hx
  simp only [beq_iff_eq]
  intro he
  exact h (List.mem_map.mpr ⟨x, hx, he⟩)

lemma find?_append_none {α : Type} (p : α → Bool) (l1 l2 : List α)
    (h : l1.find? p = none) : (l1 ++ l2).find? p = l2.find? p := by
  induction l1 with
  | nil => rfl
  | cons x xs ih =>
    rw [List.find?_cons] at h
    cases hp : p x with
    | true => rw [hp] at h; simp at h
    | false =>
      rw [hp] at h
      show List.find? p (x :: (xs ++ l2)) = _
      rw [List.find?_cons, hp, ih h]

lemma mem_insertDesc (x r : ClientRow) (l : List ClientRow) :
    x ∈ insertDesc r l → x = r ∨ x ∈ l := by
  induction l with
  | nil => intro h; rcases List.mem_singleton.mp h with rfl; left; rfl
  | cons y ys ih =>
    intro h
    by_cases hc : y.id ≤ r.id
    · simp only [insertDesc, if_pos hc] at h
      rcases List.mem_cons.mp h with rfl | h2
      · left; rfl
      · right; exact h2
    · simp only [insertDesc, if_neg hc] at h
      rcases List.mem_cons.mp h with rfl | h2
      · right; simp
      · rcases ih h2 with h3 | h3
        · left; exact h3
        · right; simp [h3]

lemma mem_sortDesc (x : ClientRow) (l : List ClientRow) :
    x ∈ sortDesc l → x ∈ l := by
  induction l with
  | nil => intro h; simp [sortDesc] at h
  | cons y ys ih =>
    intro h
    have : x ∈ insertDesc y (sortDesc ys) := h
    rcases mem_insertDesc x y (sortDesc ys) this with rfl | h2
    · simp
    · simp [ih h2]

lemma pyOr_some_ne (v d : String) (h : v ≠ "") : pyOr (some v) d = v := by
  simp [pyOr, h]

lemma pyOr_some_default (v : String) : pyOr (some v) "" = v := by
  by_cases h : v = ""
  · subst h; rfl
  · simp [pyOr, h]

lemma bytesToHex_length (bs : List Nat) : (bytesToHex bs).length = 2 * bs.length := by
  show (bytesToHex bs).data.length = 2 * bs.length
  induction bs with
  | nil => rfl
  | cons b tl ih =>
    show (hexLowerDigit (b / 16 % 16) :: hexLowerDigit (b % 16)
      :: (bytesToHex tl).data).length = 2 * (tl.length + 1)
    simp only [List.length_cons]
    rw [show (bytesToHex tl).data.length = 2 * tl.length from ih]
    omega

/-- The column of one fixed field in a row (`kundennummer` is the
non-nullable identifier column). -/
def rowField (r : ClientRow) : String → Option String
  | "kundennummer" => some r.kundennummer
  | "ma" => r.ma
  | "name" => r.name
  | "strasse" => r.strasse
  | "plz" => r.plz
  | "ort" => r.ort
  | "geburtsdatum" => r.geburtsdatum
  | "pg" => r.pg
  | "versicherungsnummer" => r.versicherungsnummer
  | "pflegekasse" => r.pflegekasse
  | "telefon" => r.telefon
  | "preise" => r.preise
  | "fahrtkosten" => r.fahrtkosten
  | "bemerkungen" => r.bemerkungen
  | _ => none

lemma dlookup_rowBase_kundennummer (r : ClientRow) :
    dlookup "kundennummer" (rowBase r) = some r.kundennummer := rfl

lemma dlookup_rowBase (r : ClientRow) :
    ∀ k ∈ fixedKeys, k ≠ "kundennummer" →
      dlookup k (rowBase r) = some (pyOr (rowField r k) "") := by
  intro k hk hne
  fin_cases hk
  · exact absurd rfl hne
  all_goals rfl

lemma dlookup_rowBase_isSome (r : ClientRow) :
    ∀ k ∈ fixedKeys, (dlookup k (rowBase r)).isSome := by
  intro k hk
  fin_cases hk
  all_goals rfl

/-- Recognize the string-drawing operations of a page. -/
def isDrawString : PdfOp → Bool
  | PdfOp.drawString _ _ _ => true
  | _ => false

/-- Recognize the page-emission operation. -/
def isShowPage : PdfOp → Bool
  | PdfOp.showPage => true
  | _ => false

/-- The vertical positions (distance below the top edge) of all drawn
strings, in drawing order. -/
def drawDepths (ops : List PdfOp) : List Int :=
  ops.filterMap (fun op =>
    match op with
    | PdfOp.drawString _ d _ => some d
    | _ => none)

lemma strokeOps_no_text (strokes : List (List (Int × Int))) :
    ∀ op ∈ strokeOps strokes, isShowPage op = false ∧ isDrawString op = false := by
  induction strokes with
  | nil => simp [strokeOps]
  | cons s tl ih =>
    intro op hop
    rcases List.mem_append.mp hop with hmem | hmem
    · obtain ⟨pq, _, rfl⟩ := List.mem_map.mp hmem
      exact ⟨rfl, rfl⟩
    · exact ih op hmem

/-! ## Claim theorems -/

/-- An example store holding one client row whose identifier `K-00099`
was supplied by the caller (row id 1). -/
def exStateC1 : DbState :=
  ⟨[], [⟨1, "K-00099", none, none, none, none, none, none, none, none,
         none, none, none, none, none, some "\x7b\x7d"⟩]⟩

/-- C1 (counterexample): `_next_kundennummer` does not compute one plus
the highest numeric suffix of the stored identifiers.  On a store whose
only row carries the caller-supplied identifier `K-00099` (row id 1) the
code returns `K-00002` (one plus `MAX(id)`), while the claimed
suffix-based rule yields `K-00100`. -/
theorem C1_counterexample :
    next_kundennummer exStateC1 = "K-00002" ∧
    specNextIdentifier exStateC1 = "K-00100" ∧
    next_kundennummer exStateC1 ≠ specNextIdentifier exStateC1 := by
  refine ⟨by decide, by decide, by decide⟩

/-- C1 (amended): `_next_kundennummer` returns `K-` plus the 5-digit
zero-padded value of one plus the highest internal row id (`MAX(id)`),
`K-00001` on an empty store; the maximum is attained by a stored row
and bounds every row id.  The suffix-based description only coincides
with this when identifiers were auto-assigned sequentially. -/
theorem C1_next_kundennummer (st : DbState) :
    next_kundennummer st = kFormat (maxId st.clients + 1) ∧
    (∀ r ∈ st.clients, r.id ≤ maxId st.clients) ∧
    (st.clients ≠ [] → ∃ r ∈ st.clients, r.id = maxId st.clients) ∧
    (st.clients = [] → next_kundennummer st = "K-00001") := by
  refine ⟨rfl, mem_le_maxId _, maxId_attained _, ?_⟩
  intro h
  show kFormat (maxId st.clients + 1) = "K-00001"
  rw [h]
  decide

/-- C1 witness: the amended statement evaluated on the empty store. -/
theorem C1_next_kundennummer_witness :
    next_kundennummer ⟨[], []⟩ = "K-00001" :=
  (C1_next_kundennummer ⟨[], []⟩).2.2.2 rfl

/-- An example listed client record with every contract field set. -/
def exClientC3 : List (String × String) :=
  [("kundennummer", "K-00001"), ("name", "Erika Beispiel"),
   ("strasse", "Musterweg 1"), ("plz", "12345"), ("ort", "Beispielstadt"),
   ("geburtsdatum", "01.02.1950"), ("pg", "3"),
   ("versicherungsnummer", "A123456789"), ("pflegekasse", "AOK")]

/-- C3 (counterexample): the PDF contract export draws no company line
— its output with the company name `ACME Pflege GmbH` set is identical
to its output with no company name — and it draws ten strings in total
(title, seven label/value lines, the boilerplate sentence, and the
signature heading), not the eight label/value lines plus conditional
company line the claim describes. -/
theorem C3_counterexample :
    export_pdf exClientC3 "ACME Pflege GmbH" [] = export_pdf exClientC3 "" [] ∧
    ((export_pdf exClientC3 "ACME Pflege GmbH" []).ops.filter isDrawString).length
      = 10 := by
  exact ⟨rfl, rfl⟩

/-- C3 (amended): for every client record, branding state and stroke
list, `_export_pdf` emits one fixed-layout A4 page: the fixed text
block (title at depth 60, seven label/value lines at depths 80–176 with
a 16-point pitch, the boilerplate sentence at 206, the signature
heading at 246), then the signature segments, then exactly one page
emission; the company name never affects the output. -/
theorem C3_amended (client : List (String × String)) (companyName : String)
    (strokes : List (List (Int × Int))) :
    (export_pdf client companyName strokes).pagesize = "A4" ∧
    (export_pdf client companyName strokes).ops
      = contractOps client ++ strokeOps strokes ++ [PdfOp.showPage] ∧
    export_pdf client companyName strokes = export_pdf client "" strokes ∧
    drawDepths (contractOps client)
      = [60, 80, 96, 112, 128, 144, 160, 176, 206, 246] ∧
    ((export_pdf client companyName strokes).ops.filter isShowPage).length = 1 := by
  refine ⟨rfl, rfl, rfl, rfl, ?_⟩
  show ((contractOps client ++ strokeOps strokes ++ [PdfOp.showPage]).filter
    isShowPage).length = 1
  rw [List.filter_append, List.filter_append]
  have h1 : (contractOps client).filter isShowPage = [] := rfl
  have h2 : (strokeOps strokes).filter isShowPage = [] := by
    rw [List.filter_eq_nil_iff]
    intro op hop
    simp [(strokeOps_no_text strokes op hop).1]
  rw [h1, h2]
  rfl

/-- C4: `validate_user` returns false when the username is not stored;
when it is stored, it returns true exactly when the stored hash equals
the hash of the supplied password under the stored salt; and after a
successful `create_user`, validation succeeds for the registered
password and fails for any password whose derived hash differs. -/
theorem C4_validate_user (pbkdf2 : String → String → String) (st : DbState)
    (u p : String) :
    (st.users.find? (fun x => x.username == u) = none →
        validate_user pbkdf2 st u p = false) ∧
    (∀ row, st.users.find? (fun x => x.username == u) = some row →
        (validate_user pbkdf2 st u p = true ↔
          row.password_hash = pbkdf2 p row.salt)) ∧
    (∀ entropy st', create_user pbkdf2 st u p entropy = (true, st') →
        validate_user pbkdf2 st' u p = true ∧
        ∀ p', pbkdf2 p' (bytesToHex entropy) ≠ pbkdf2 p (bytesToHex entropy) →
          validate_user pbkdf2 st' u p' = false) := by
  refine ⟨?_, ?_, ?_⟩
  · intro h
    simp [validate_user, h]
  · intro row h
    simp [validate_user, h]
  · intro entropy st' h
    unfold create_user at h
    cases hb : (st.users.map UserRow.username).contains u with
    | true => rw [hb] at h; simp at h
    | false =>
      rw [hb] at h
      simp only [if_neg (by simp : ¬(false = true)), Prod.mk.injEq, true_and] at h
      have hnotmem : u ∉ st.users.map UserRow.username :=
        (contains_eq_false_iff _ _).mp hb
      have hfind : st.users.find? (fun x => x.username == u) = none :=
        find?_username_none st.users u hnotmem
      have hfind' : st'.users.find? (fun x => x.username == u)
          = some ⟨u, pbkdf2 p (bytesToHex entropy), bytesToHex entropy⟩ := by
        rw [← h]
        show List.find? (fun x => x.username == u)
          (st.users ++ [(⟨u, pbkdf2 p (bytesToHex entropy),
            bytesToHex entropy⟩ : UserRow)]) = _
        rw [find?_append_none _ _ _ hfind]
        simp [List.find?_cons]
      constructor
      · simp [validate_user, hfind']
      · intro p' hne
        simp only [validate_user, hfind', beq_iff_eq]
        simp only [beq_eq_false_iff_ne, ne_eq]
        exact fun hh => hne hh.symm
  
/-- C4 witness: the credential round trip with a concrete hash
function on a fresh store. -/
theorem C4_validate_user_witness :
    validate_user (fun pw s => pw ++ "#" ++ s)
      (create_user (fun pw s => pw ++ "#" ++ s) (⟨[], []⟩ : DbState) "alice" "pw1"
        (List.replicate 16 171)).2 "alice" "pw1" = true ∧
    validate_user (fun pw s => pw ++ "#" ++ s)
      (create_user (fun pw s => pw ++ "#" ++ s) (⟨[], []⟩ : DbState) "alice" "pw1"
        (List.replicate 16 171)).2 "alice" "wrong" = false := by
  have h := (C4_validate_user (fun pw s => pw ++ "#" ++ s) (⟨[], []⟩ : DbState)
    "alice" "pw1").2.2 (List.replicate 16 171)
    (create_user (fun pw s => pw ++ "#" ++ s) (⟨[], []⟩ : DbState) "alice" "pw1"
      (List.replicate 16 171)).2 (by decide)
  exact ⟨h.1, h.2 "wrong" (by decide)⟩

/-- C5: `create_user` returns false and leaves the user table unchanged
when the username is taken (the uniqueness error is caught, the
transaction rolled back); on a fresh username it inserts exactly one
account carrying the hex-encoded salt and the hash of the password
under that salt, returns true, and the salt of 16 random bytes encodes
to 32 hexadecimal characters (128 bits). -/
theorem C5_create_user (pbkdf2 : String → String → String) (st : DbState)
    (u p : String) (entropy : List Nat) :
    (u ∈ st.users.map UserRow.username →
        create_user pbkdf2 st u p entropy = (false, st)) ∧
    (u ∉ st.users.map UserRow.username →
        create_user pbkdf2 st u p entropy
          = (true, { st with users := st.users
              ++ [⟨u, pbkdf2 p (bytesToHex entropy), bytesToHex entropy⟩] })) ∧
    (entropy.length = 16 → (bytesToHex entropy).length = 32) := by
  refine ⟨?_, ?_, ?_⟩
  · intro hmem
    have hb : (st.users.map UserRow.username).contains u = true := by
      cases hcb : (st.users.map UserRow.username).contains u with
      | true => rfl
      | false => exact absurd hmem ((contains_eq_false_iff _ _).mp hcb)
    unfold create_user
    rw [hb]
    simp
  · intro hmem
    have hb : (st.users.map UserRow.username).contains u = false :=
      (contains_eq_false_iff _ _).mpr hmem
    unfold create_user
    rw [hb]
    simp
  · intro hlen
    rw [bytesToHex_length, hlen]

/-- C5 witness: duplicate registration is refused without changing the
store, after a successful first registration. -/
theorem C5_create_user_witness :
    create_user (fun pw s => pw ++ "#" ++ s)
      (create_user (fun pw s => pw ++ "#" ++ s) (⟨[], []⟩ : DbState) "alice" "pw1"
        (List.replicate 16 171)).2 "alice" "pw2" (List.replicate 16 5)
      = (false, (create_user (fun pw s => pw ++ "#" ++ s) (⟨[], []⟩ : DbState)
          "alice" "pw1" (List.replicate 16 171)).2) ∧
    (bytesToHex (List.replicate 16 171)).length = 32 := by
  constructor
  · exact (C5_create_user (fun pw s => pw ++ "#" ++ s)
      (create_user (fun pw s => pw ++ "#" ++ s) (⟨[], []⟩ : DbState) "alice" "pw1"
        (List.replicate 16 171)).2 "alice" "pw2" (List.replicate 16 5)).1
      (by decide)
  · exact (C5_create_user (fun pw s => pw ++ "#" ++ s) (⟨[], []⟩ : DbState)
      "alice" "pw1" (List.replicate 16 171)).2.2 rfl

/-- C6: `save_client` propagates the uniqueness error and leaves the
client table unchanged when the resolved identifier is already stored;
on a fresh identifier it appends exactly one row whose
`extra_fields` column is the JSON serialization of the extra fields;
and a nonempty caller-supplied identifier is the resolved one. -/
theorem C6_save_client (st : DbState) (data extra : List (String × String)) :
    (resolveKundennummer st data ∈ st.clients.map ClientRow.kundennummer →
        save_client st data extra
          = Except.error "UNIQUE constraint failed: clients.kundennummer"
        ∧ runSave st data extra = st) ∧
    (resolveKundennummer st data ∉ st.clients.map ClientRow.kundennummer →
        save_client st data extra
          = Except.ok { st with clients := st.clients ++ [savedRow st data extra] }
        ∧ (savedRow st data extra).extra_fields = some (jsonDumps extra)) ∧
    (∀ k, dlookup "kundennummer" data = some k → k ≠ "" →
        resolveKundennummer st data = k) := by
  refine ⟨?_, ?_, ?_⟩
  · intro hmem
    have hb : (st.clients.map ClientRow.kundennummer).contains
        (resolveKundennummer st data) = true := by
      cases hcb : (st.clients.map ClientRow.kundennummer).contains
          (resolveKundennummer st data) with
      | true => rfl
      | false => exact absurd hmem ((contains_eq_false_iff _ _).mp hcb)
    constructor
    · unfold save_client
      rw [hb]
      simp
    · unfold runSave save_client
      rw [hb]
      simp
  · intro hmem
    have hb : (st.clients.map ClientRow.kundennummer).contains
        (resolveKundennummer st data) = false :=
      (contains_eq_false_iff _ _).mpr hmem
    refine ⟨?_, rfl⟩
    unfold save_client
    rw [hb]
    simp
  · intro k hk hne
    rw [resolveKundennummer, hk, pyOr_some_ne k _ hne]

/-- C6 witness: a duplicate caller-supplied identifier is rejected and
the store is unchanged; the same save on the empty store succeeds with
the serialized extra fields in the inserted row. -/
theorem C6_save_client_witness :
    (∃ msg, save_client exStateC1 [("kundennummer", "K-00099")] []
      = Except.error msg) ∧
    runSave exStateC1 [("kundennummer", "K-00099")] [] = exStateC1 ∧
    (savedRow (⟨[], []⟩ : DbState) [("kundennummer", "K-00099")]
      [("Hobby", "Schach")]).extra_fields
      = some (jsonDumps [("Hobby", "Schach")]) := by
  have h1 := (C6_save_client exStateC1 [("kundennummer", "K-00099")] []).1
    (by decide)
  have h2 := (C6_save_client (⟨[], []⟩ : DbState) [("kundennummer", "K-00099")]
    [("Hobby", "Schach")]).2.1 (by decide)
  exact ⟨⟨_, h1.1⟩, h1.2, h2.2⟩

/-- C9: when the client table is empty the Excel export returns only
the informational notice, produces no saved file, and hands back the
store unchanged. -/
theorem C9_export_excel_empty (st : DbState) (path : Option String)
    (h : st.clients = []) :
    export_excel st path
      = some (st, ExcelResult.notice "Keine Kunden zum Exportieren.") := by
  have hl : list_clients st = some [] := by
    rw [list_clients, h]
    rfl
  simp [export_excel, hl]

/-- C9 witness: the empty store with a chosen destination path. -/
theorem C9_export_excel_empty_witness :
    export_excel (⟨[], []⟩ : DbState) (some "kunden.xlsx")
      = some ((⟨[], []⟩ : DbState),
          ExcelResult.notice "Keine Kunden zum Exportieren.") :=
  C9_export_excel_empty _ _ rfl

lemma rowField_savedRow (st : DbState) (data extra : List (String × String)) :
    ∀ k ∈ fixedKeys, k ≠ "kundennummer" →
      rowField (savedRow st data extra) k = dlookup k data := by
  intro k hk hne
  fin_cases hk
  · exact absurd rfl hne
  all_goals rfl

/-- Saving on a well-formed, listable store prepends the rendered new
record to the listing. -/
lemma save_list_cons {st st' : DbState} {d e : List (String × String)}
    {prev : List (List (String × String))}
    (hwf : wfClients st) (hnd : (e.map Prod.fst).Nodup)
    (hprev : list_clients st = some prev)
    (hsave : save_client st d e = Except.ok st') :
    wfClients st' ∧
    rowToClient (savedRow st d e) = some (pyUpdate (rowBase (savedRow st d e)) e) ∧
    list_clients st' = some (pyUpdate (rowBase (savedRow st d e)) e :: prev) := by
  have hcl : st'.clients = st.clients ++ [savedRow st d e] :=
    save_client_ok_clients hsave
  have hwf' : wfClients st' := save_client_wf hwf hsave
  have hc : rowToClient (savedRow st d e)
      = some (pyUpdate (rowBase (savedRow st d e)) e) :=
    rowToClient_savedRow st d e hnd
  refine ⟨hwf', hc, ?_⟩
  have hsort' : sortDesc st'.clients = savedRow st d e :: st.clients.reverse := by
    rw [sortDesc_eq_reverse _ hwf', hcl]
    simp
  have hprev' : optionTraverse rowToClient st.clients.reverse = some prev := by
    rw [← sortDesc_eq_reverse _ hwf]
    exact hprev
  show optionTraverse rowToClient (sortDesc st'.clients) = _
  rw [hsort']
  exact optionTraverse_cons _ _ _ _ _ hc hprev'

/-- C2: saving a record whose extra-field keys avoid the fixed field
names and then listing yields (at the head of the listing) a record
whose fixed fields carry exactly the saved values — the resolved
identifier under `kundennummer`, and each caller-supplied fixed value
under its key — and which maps every extra-field key to its saved
value. -/
theorem C2_save_list_roundtrip (st st' : DbState)
    (data extra : List (String × String))
    (prev : List (List (String × String)))
    (hwf : wfClients st)
    (hnd : (extra.map Prod.fst).Nodup)
    (hdisj : ∀ k ∈ extra.map Prod.fst, k ∉ fixedKeys)
    (hprev : list_clients st = some prev)
    (hsave : save_client st data extra = Except.ok st') :
    ∃ c, list_clients st' = some (c :: prev) ∧
      dlookup "kundennummer" c = some (resolveKundennummer st data) ∧
      (∀ k v, k ∈ fixedKeys → k ≠ "kundennummer" → dlookup k data = some v →
        dlookup k c = some v) ∧
      (∀ k v, (k, v) ∈ extra → dlookup k c = some v) := by
  obtain ⟨hwf', hc, hlist⟩ := save_list_cons hwf hnd hprev hsave
  refine ⟨pyUpdate (rowBase (savedRow st data extra)) extra, hlist, ?_, ?_, ?_⟩
  · have hnotin : "kundennummer" ∉ extra.map Prod.fst :=
      fun hmem => hdisj _ hmem (by decide)
    rw [dlookup_pyUpdate_not_mem extra _ _ hnotin,
      dlookup_rowBase_kundennummer]
    rfl
  · intro k v hk hne hdata
    have hnotin : k ∉ extra.map Prod.fst := fun hmem => hdisj _ hmem hk
    rw [dlookup_pyUpdate_not_mem extra _ k hnotin, dlookup_rowBase _ k hk hne,
      rowField_savedRow st data extra k hk hne, hdata, pyOr_some_default]
  · intro k v hmem
    exact dlookup_pyUpdate_mem extra _ k v hnd hmem

/-- C2 witness: one concrete save on the empty store, listed back. -/
theorem C2_save_list_roundtrip_witness :
    ∃ c, list_clients (runSave (⟨[], []⟩ : DbState)
        [("name", "Erika Beispiel"), ("plz", "12345")] [("Hobby", "Schach")])
        = some (c :: []) ∧
      dlookup "kundennummer" c
        = some (resolveKundennummer (⟨[], []⟩ : DbState)
            [("name", "Erika Beispiel"), ("plz", "12345")]) ∧
      (∀ k v, k ∈ fixedKeys → k ≠ "kundennummer" →
        dlookup k [("name", "Erika Beispiel"), ("plz", "12345")] = some v →
        dlookup k c = some v) ∧
      (∀ k v, (k, v) ∈ [("Hobby", "Schach")] → dlookup k c = some v) := by
  exact C2_save_list_roundtrip (⟨[], []⟩ : DbState) _
    [("name", "Erika Beispiel"), ("plz", "12345")] [("Hobby", "Schach")] []
    (by decide) (by decide) (by decide) (by decide) (by rfl)

/-- C7: saving three records in order onto a well-formed, listable
store and then listing returns the three new records first, most
recently saved first, followed by the previous listing. -/
theorem C7_list_order (st st1 st2 st3 : DbState)
    (d1 e1 d2 e2 d3 e3 : List (String × String))
    (prev : List (List (String × String)))
    (hwf : wfClients st)
    (hn1 : (e1.map Prod.fst).Nodup) (hn2 : (e2.map Prod.fst).Nodup)
    (hn3 : (e3.map Prod.fst).Nodup)
    (hprev : list_clients st = some prev)
    (h1 : save_client st d1 e1 = Except.ok st1)
    (h2 : save_client st1 d2 e2 = Except.ok st2)
    (h3 : save_client st2 d3 e3 = Except.ok st3) :
    ∃ c1 c2 c3,
      rowToClient (savedRow st d1 e1) = some c1 ∧
      rowToClient (savedRow st1 d2 e2) = some c2 ∧
      rowToClient (savedRow st2 d3 e3) = some c3 ∧
      list_clients st3 = some (c3 :: c2 :: c1 :: prev) := by
  obtain ⟨hwf1, hc1, hl1⟩ := save_list_cons hwf hn1 hprev h1
  obtain ⟨hwf2, hc2, hl2⟩ := save_list_cons hwf1 hn2 hl1 h2
  obtain ⟨hwf3, hc3, hl3⟩ := save_list_cons hwf2 hn3 hl2 h3
  exact ⟨_, _, _, hc1, hc2, hc3, hl3⟩

/-- C7 witness: three concrete saves on the empty store. -/
theorem C7_list_order_witness :
    ∃ c1 c2 c3,
      rowToClient (savedRow (⟨[], []⟩ : DbState) [("name", "A")] []) = some c1 ∧
      rowToClient (savedRow (runSave (⟨[], []⟩ : DbState) [("name", "A")] [])
        [("name", "B")] []) = some c2 ∧
      rowToClient (savedRow (runSave (runSave (⟨[], []⟩ : DbState)
        [("name", "A")] []) [("name", "B")] []) [("name", "C")] []) = some c3 ∧
      list_clients (runSave (runSave (runSave (⟨[], []⟩ : DbState)
        [("name", "A")] []) [("name", "B")] []) [("name", "C")] [])
        = some (c3 :: c2 :: c1 :: []) := by
  exact C7_list_order (⟨[], []⟩ : DbState) _ _ _
    [("name", "A")] [] [("name", "B")] [] [("name", "C")] [] []
    (by decide) (by decide) (by decide) (by decide) (by decide)
    (by rfl) (by rfl) (by rfl)

/-- A sequence of form submissions: each entry is the fixed-field dict
and the extra-field dict of one save action. -/
def saveAll (st : DbState) :
    List (List (String × String) × List (String × String)) → DbState
  | [] => st
  | de :: rest => saveAll (runSave st de.1 de.2) rest

lemma kFormat_ne_of_le {i n : Nat} (h : i ≤ n) : kFormat i ≠ kFormat (n + 1) := by
  intro he
  have := kFormat_inj he
  omega

lemma saveAll_auto
    (inputs : List (List (String × String) × List (String × String))) :
    ∀ (st : DbState) (k : Nat), maxId st.clients = k →
      (∀ r ∈ st.clients, ∃ i, 1 ≤ i ∧ i ≤ k ∧ r.kundennummer = kFormat i) →
      (∀ p ∈ inputs, dlookup "kundennummer" p.1 = none
        ∨ dlookup "kundennummer" p.1 = some "") →
      maxId (saveAll st inputs).clients = k + inputs.length ∧
      (∀ r ∈ (saveAll st inputs).clients,
        ∃ i, 1 ≤ i ∧ i ≤ k + inputs.length ∧ r.kundennummer = kFormat i) := by
  induction inputs with
  | nil =>
    intro st k hk hall _
    exact ⟨by simpa using hk, by simpa using hall⟩
  | cons de tl ih =>
    intro st k hk hall hauto
    have hres : resolveKundennummer st de.1 = kFormat (k + 1) := by
      rcases hauto de (by simp) with hd | hd
      · rw [resolveKundennummer, hd]
        show next_kundennummer st = _
        rw [next_kundennummer, hk]
      · rw [resolveKundennummer, hd]
        show next_kundennummer st = _
        rw [next_kundennummer, hk]
    have hb : (st.clients.map ClientRow.kundennummer).contains
        (resolveKundennummer st de.1) = false := by
      apply (contains_eq_false_iff _ _).mpr
      intro hmem
      obtain ⟨r, hr, hkn⟩ := List.mem_map.mp hmem
      obtain ⟨i, h1, h2, h3⟩ := hall r hr
      rw [hres] at hkn
      exact kFormat_ne_of_le h2 (h3.symm.trans hkn)
    have hrun : runSave st de.1 de.2
        = { st with clients := st.clients ++ [savedRow st de.1 de.2] } := by
      unfold runSave save_client
      rw [hb]
      simp
    have hmax : maxId (runSave st de.1 de.2).clients = k + 1 := by
      rw [hrun]
      show maxId (st.clients ++ [savedRow st de.1 de.2]) = k + 1
      rw [maxId_append, maxId_cons]
      show Nat.max (maxId st.clients)
        (Nat.max (maxId st.clients + 1) (maxId [])) = k + 1
      rw [hk]
      show Nat.max k (Nat.max (k + 1) 0) = k + 1
      have hz1 : Nat.max (k + 1) 0 = k + 1 := Nat.max_eq_left (Nat.zero_le _)
      have hz2 : Nat.max k (k + 1) = k + 1 := Nat.max_eq_right (by omega)
      rw [hz1, hz2]
    have hall' : ∀ r ∈ (runSave st de.1 de.2).clients,
        ∃ i, 1 ≤ i ∧ i ≤ k + 1 ∧ r.kundennummer = kFormat i := by
      rw [hrun]
      intro r hr
      rcases List.mem_append.mp hr with hold | hnew
      · obtain ⟨i, ha, hb2, hc2⟩ := hall r hold
        exact ⟨i, ha, by omega, hc2⟩
      · rcases List.mem_singleton.mp hnew with rfl
        refine ⟨k + 1, by omega, by omega, ?_⟩
        show resolveKundennummer st de.1 = kFormat (k + 1)
        exact hres
    have hstep := ih (runSave st de.1 de.2) (k + 1) hmax hall'
      (fun p hp => hauto p (by simp [hp]))
    show maxId (saveAll (runSave st de.1 de.2) tl).clients
        = k + (tl.length + 1) ∧ _
    constructor
    · rw [hstep.1]
      omega
    · intro r hr
      obtain ⟨i, ha, hb2, hc2⟩ := hstep.2 r hr
      refine ⟨i, ha, ?_, hc2⟩
      have hlen : (de :: tl).length = tl.length + 1 := rfl
      omega

/-- C8: on the empty store `_next_kundennummer` yields `K-00001`, and
after any sequence of N saves in which every submission leaves the
identifier to be auto-assigned (absent or empty `kundennummer`), the
next call yields N+1 in the `K-` five-digit zero-padded format. -/
theorem C8_identifier_sequence
    (inputs : List (List (String × String) × List (String × String)))
    (hauto : ∀ p ∈ inputs, dlookup "kundennummer" p.1 = none
      ∨ dlookup "kundennummer" p.1 = some "") :
    next_kundennummer (⟨[], []⟩ : DbState) = "K-00001" ∧
    next_kundennummer (saveAll (⟨[], []⟩ : DbState) inputs)
      = kFormat (inputs.length + 1) := by
  constructor
  · decide
  · have h := saveAll_auto inputs (⟨[], []⟩ : DbState) 0 rfl (by simp) hauto
    show kFormat (maxId (saveAll (⟨[], []⟩ : DbState) inputs).clients + 1) = _
    rw [h.1]
    simp

/-- C8 witness: three auto-assigned saves yield `K-00004` next. -/
theorem C8_identifier_sequence_witness :
    next_kundennummer (saveAll (⟨[], []⟩ : DbState)
      [([("name", "A")], []), ([("name", "B")], []), ([("name", "C")], [])])
      = kFormat 4 ∧ kFormat 4 = "K-00004" := by
  refine ⟨(C8_identifier_sequence _ (by decide)).2, by decide⟩

/-- C10: every record `list_clients` returns is a stored row's base
dict — which contains all fourteen fixed keys, the identifier verbatim
and every nullable column rendered as a string with NULL collapsed to
the empty string — merged with that row's parsed extra-field mapping;
after the merge every fixed key still maps to some string. -/
theorem C10_fixed_fields (st : DbState)
    (cs : List (List (String × String)))
    (h : list_clients st = some cs) :
    ∀ c ∈ cs, ∃ r ∈ st.clients, ∃ extra,
      jsonLoads (pyOr r.extra_fields "\x7b\x7d") = some extra ∧
      c = pyUpdate (rowBase r) extra ∧
      dlookup "kundennummer" (rowBase r) = some r.kundennummer ∧
      (∀ k ∈ fixedKeys, k ≠ "kundennummer" →
        dlookup k (rowBase r) = some (pyOr (rowField r k) "")) ∧
      (∀ k ∈ fixedKeys, ∃ v : String, dlookup k c = some v) := by
  intro c hc
  obtain ⟨row, hrow, hf⟩ := optionTraverse_mem rowToClient _ cs h c hc
  have hrowmem : row ∈ st.clients := mem_sortDesc _ _ hrow
  unfold rowToClient at hf
  cases hj : jsonLoads (pyOr row.extra_fields "\x7b\x7d") with
  | none => rw [hj] at hf; simp at hf
  | some extra =>
    rw [hj] at hf
    simp only [Option.map_some', Option.some.injEq] at hf
    refine ⟨row, hrowmem, extra, hj, hf.symm,
      dlookup_rowBase_kundennummer row, dlookup_rowBase row, ?_⟩
    intro k hk
    have hbase := dlookup_rowBase_isSome row k hk
    have hmerged := dlookup_pyUpdate_isSome extra (rowBase row) k hbase
    rw [hf] at hmerged
    obtain ⟨v, hv⟩ := Option.isSome_iff_exists.mp hmerged
    exact ⟨v, hv⟩

/-- A row whose nullable columns are all NULL and whose blob adds one
extra field, and the store and listed record built from it. -/
def exRowC10 : ClientRow :=
  ⟨1, "K-00001", none, none, none, none, none, none, none, none, none,
   none, none, none, none, some "\x7b\"Hobby\": \"Schach\"\x7d"⟩

def exStateC10 : DbState := ⟨[], [exRowC10]⟩

def exClientC10 : List (String × String) :=
  pyUpdate (rowBase exRowC10) [("Hobby", "Schach")]

/-- C10 witness: the statement evaluated on a one-row store whose
nullable columns are NULL. -/
theorem C10_fixed_fields_witness :
    ∃ r ∈ exStateC10.clients, ∃ extra,
      jsonLoads (pyOr r.extra_fields "\x7b\x7d") = some extra ∧
      exClientC10 = pyUpdate (rowBase r) extra ∧
      dlookup "kundennummer" (rowBase r) = some r.kundennummer ∧
      (∀ k ∈ fixedKeys, k ≠ "kundennummer" →
        dlookup k (rowBase r) = some (pyOr (rowField r k) "")) ∧
      (∀ k ∈ fixedKeys, ∃ v : String, dlookup k exClientC10 = some v) :=
  C10_fixed_fields exStateC10 [exClientC10] (by rfl) exClientC10 (by simp)
